import Mathlib

/-!
# Verification of the team-role assignment pipeline

A shallow embedding of the core assignment pipeline of the
`teambuilding-role-ZH-PUBLIC` repository: the bounded-concurrency
`AssignmentQueue`, the `Assigner` (Hungarian-algorithm optimal matcher),
the `Scorer` response validation, the `JustifierService` / `JustifierRunner`
justification generation and retry wrapper, the `AssignmentProcessor`
pipeline state machine, and the `AssignmentHealthChecker` recovery logic.

JavaScript `number` scores are modelled as integers (the operations the
claims involve - comparison, subtraction from 100, summation - are uniform
in the ordered ring, and all scores the system produces are integers);
external I/O (OpenAI calls, Supabase persistence) is modelled by explicit
outcome parameters, with the parsing/validation logic translated from the
source.  The persisted session store is modelled as an association list
from session id to status.
-/

set_option autoImplicit false

deriving instance DecidableEq for Except

namespace TeamRole

/-! ## Data model (from `src/types/index.ts`) -/

structure Applicant where
  id : String
  name : String
  deriving DecidableEq, Repr

structure Team where
  id : String
  applicants : List Applicant
  maxMembers : Nat
  isComplete : Bool
  deriving DecidableEq, Repr

structure RoleDefinition where
  id : String
  name : String
  deriving DecidableEq, Repr

structure ScoreMatrix where
  teamId : String
  scores : List (List ℤ)
  deriving DecidableEq, Repr

structure Assignment where
  applicantId : String
  roleId : String
  score : ℤ
  justification : Option String := none
  deriving DecidableEq, Repr

structure TeamAssignment where
  teamId : String
  assignments : List Assignment
  totalScore : ℤ
  justificationsGenerated : Bool
  deriving DecidableEq, Repr

/-- Session status state machine values (from `types/index.ts`). -/
inductive SessionStatus where
  | pending | scoring | assigning | justifying | complete
  deriving DecidableEq, Repr

/-! ## AssignmentQueue (from `src/lib/services/AssignmentQueue.ts`)

State of the in-process scheduler.  The JS `Set` `processingPool` is a
duplicate-free list of team ids in insertion order; `waitingQueue` is the
FIFO list of `QueueItem`s.  Two pieces of implicit runtime state are made
explicit: `pendingRetries` holds items whose `setTimeout` re-insertion
(scheduled by `retryTeam`) has not fired yet, and `inflight` holds the
queue items captured by pipeline executions that have been started by
`startProcessing` and whose promise has not settled yet. -/

structure QueueItem where
  teamId : String
  retryCount : Nat
  deriving DecidableEq, Repr

structure QueueState where
  processingPool : List String
  waitingQueue : List QueueItem
  pendingRetries : List QueueItem
  inflight : List QueueItem
  totalProcessed : Nat
  totalFailed : Nat
  deriving DecidableEq, Repr

def MAX_CONCURRENT : Nat := 3

def MAX_RETRIES : Nat := 3

/-- JS `Set.add`: insert at the end unless already present. -/
def poolInsert (pool : List String) (t : String) : List String :=
  if t ∈ pool then pool else pool ++ [t]

/-- `startProcessing`: add the team id to the processing pool and launch a
pipeline execution for the captured queue item. -/
def startProcessing (s : QueueState) (item : QueueItem) : QueueState :=
  { s with
    processingPool := poolInsert s.processingPool item.teamId
    inflight := s.inflight ++ [item] }

/-- `addTeam`: no-op when the team is already processing or already queued;
otherwise start immediately when a slot is free, else append to the
waiting queue. -/
def addTeam (s : QueueState) (teamId : String) : QueueState :=
  if teamId ∈ s.processingPool then s
  else if s.waitingQueue.any (fun it => it.teamId = teamId) then s
  else
    let queueItem : QueueItem := { teamId := teamId, retryCount := 0 }
    if s.processingPool.length < MAX_CONCURRENT then
      startProcessing s queueItem
    else
      { s with waitingQueue := s.waitingQueue ++ [queueItem] }

/-- `processNext`: when a slot is free and the waiting queue is nonempty,
shift the first waiting item and start it. -/
def processNext (s : QueueState) : QueueState :=
  if MAX_CONCURRENT ≤ s.processingPool.length then s
  else
    match s.waitingQueue with
    | [] => s
    | nextItem :: rest => startProcessing { s with waitingQueue := rest } nextItem

/-- `onProcessingComplete` for a successful pipeline run: the event is
enabled only for an execution that is actually in flight. -/
def completeSuccess (s : QueueState) (item : QueueItem) : QueueState :=
  if item ∈ s.inflight then
    processNext
      { s with
        inflight := s.inflight.erase item
        processingPool := s.processingPool.erase item.teamId
        totalProcessed := s.totalProcessed + 1 }
  else s

/-- `onProcessingComplete` for a failed pipeline run: when the captured
item still has retry budget, `retryTeam` increments its retry count and
schedules a delayed front-of-queue re-insertion (modelled by moving the
item into `pendingRetries`); otherwise the team is counted as permanently
failed.  Either way `processNext` runs. -/
def completeFailure (s : QueueState) (item : QueueItem) : QueueState :=
  if item ∈ s.inflight then
    if item.retryCount < MAX_RETRIES then
      processNext
        { s with
          inflight := s.inflight.erase item
          processingPool := s.processingPool.erase item.teamId
          pendingRetries :=
            s.pendingRetries ++ [{ item with retryCount := item.retryCount + 1 }] }
    else
      processNext
        { s with
          inflight := s.inflight.erase item
          processingPool := s.processingPool.erase item.teamId
          totalFailed := s.totalFailed + 1 }
  else s

/-- The `setTimeout` callback scheduled by `retryTeam` fires: unshift the
item to the front of the waiting queue and run `processNext`. -/
def retryFire (s : QueueState) (item : QueueItem) : QueueState :=
  if item ∈ s.pendingRetries then
    processNext
      { s with
        pendingRetries := s.pendingRetries.erase item
        waitingQueue := item :: s.waitingQueue }
  else s

/-- Events of the queue: public `addTeam` calls, settlement of in-flight
pipeline executions, and retry timers firing. -/
inductive QueueEvent where
  | add (teamId : String)
  | success (item : QueueItem)
  | failure (item : QueueItem)
  | fire (item : QueueItem)
  deriving DecidableEq, Repr

def stepQueue (s : QueueState) : QueueEvent → QueueState
  | .add t => addTeam s t
  | .success it => completeSuccess s it
  | .failure it => completeFailure s it
  | .fire it => retryFire s it

def initQueue : QueueState :=
  { processingPool := []
    waitingQueue := []
    pendingRetries := []
    inflight := []
    totalProcessed := 0
    totalFailed := 0 }

/-- Run the queue from its initial (empty) state.  Events that are not
enabled (settlement of an execution that is not in flight, a timer that is
not pending) are no-ops, so the image of `runQueue` is exactly the set of
reachable states. -/
def runQueue (evs : List QueueEvent) : QueueState :=
  evs.foldl stepQueue initQueue

/-! ## Assigner (optimal matcher)

From the `Assigner` class (bundled with `SystemInitializer.ts`), which
converts the suitability matrix into a cost matrix (`100 - score`), calls
the external `munkres-js` library, and validates the returned pairs. -/

/-- Cell lookup `m[i][j]` with JS-style out-of-bounds defaulting. -/
def cellQ (m : List (List ℤ)) (i j : Nat) : ℤ :=
  (m.getD i []).getD j 0

/-- All ways to pick, for each of `n` rows in order, a column from `avail`
without reusing a column. -/
def injectionsFrom : Nat → List Nat → List (List Nat)
  | 0, _ => [[]]
  | n + 1, avail =>
      avail.flatMap fun j => (injectionsFrom n (avail.erase j)).map (fun σ => j :: σ)

/-- Total cost of matching rows `i, i+1, ...` to the columns `σ`. -/
def matchCost (cost : List (List ℤ)) : List Nat → Nat → ℤ
  | [], _ => 0
  | j :: σ, i => cellQ cost i j + matchCost cost σ (i + 1)

/-- Total score of assigning rows `i, i+1, ...` of a score matrix to the
role columns `σ`. -/
def sumScoreFrom (scores : List (List ℤ)) : List Nat → Nat → ℤ
  | [], _ => 0
  | j :: σ, i => cellQ scores i j + sumScoreFrom scores σ (i + 1)

/-- Number of columns of a (validated rectangular) matrix. -/
def colCount (m : List (List ℤ)) : Nat :=
  (m.map List.length).foldr max 0

/-- Modelled from the spec: the external `munkres-js` npm dependency is not
part of this repository; its in-repo type declaration (`munkres-js.d.ts`)
and the spec describe it as the Hungarian algorithm, "solving the
assignment problem" on a cost matrix and returning row-column pairs of an
optimal assignment, i.e. one of minimum total cost among all one-to-one
matchings of every row to a distinct column. -/
def munkres (costMatrix : List (List ℤ)) : List (Nat × Nat) :=
  let n := costMatrix.length
  match (injectionsFrom n (List.range (colCount costMatrix))).argmin
      (fun σ => matchCost costMatrix σ 0) with
  | none => []
  | some σ => (List.range n).zip σ

inductive AssignError where
  | teamNotComplete
  | tooFewRoles
  | badMatrixShape
  | noValidMatching
  | badIndices (applicantIndex roleIndex : Nat)
  | duplicateApplicants
  | duplicateRoles
  deriving DecidableEq, Repr

/-- The assignment-building loop of `assignRoles`: walk the matcher's
row-column pairs, failing on any out-of-bounds index, and accumulate the
assignment list and the total score. -/
def buildAssignments (team : Team) (roles : List RoleDefinition)
    (sm : ScoreMatrix) : List (Nat × Nat) → Except AssignError (List Assignment × ℤ)
  | [] => .ok ([], 0)
  | (applicantIndex, roleIndex) :: rest =>
      if h : applicantIndex < team.applicants.length ∧ roleIndex < roles.length then
        let applicant := team.applicants.get ⟨applicantIndex, h.1⟩
        let role := roles.get ⟨roleIndex, h.2⟩
        let score := cellQ sm.scores applicantIndex roleIndex
        match buildAssignments team roles sm rest with
        | .error e => .error e
        | .ok (assignments, totalScore) =>
            .ok ({ applicantId := applicant.id, roleId := role.id, score := score }
                  :: assignments,
                 score + totalScore)
      else .error (.badIndices applicantIndex roleIndex)

/-- `Assigner.assignRoles`, parameterized by the row-column pairs returned
by the matching step (`hungarianResult`), so the post-matching validation
is stated for every possible matcher output. -/
def assignRolesWith (team : Team) (roles : List RoleDefinition)
    (sm : ScoreMatrix) (hungarianResult : List (Nat × Nat)) :
    Except AssignError TeamAssignment :=
  if !team.isComplete then .error .teamNotComplete
  else
    let teamSize := team.applicants.length
    let rolesCount := roles.length
    if rolesCount < teamSize then .error .tooFewRoles
    else if ¬(sm.scores.length = teamSize ∧
              sm.scores.all (fun row => row.length = rolesCount)) then
      .error .badMatrixShape
    else if hungarianResult.length ≠ teamSize then .error .noValidMatching
    else
      match buildAssignments team roles sm hungarianResult with
      | .error e => .error e
      | .ok (assignments, totalScore) =>
          if (assignments.map (fun a => a.applicantId)).dedup.length ≠ teamSize then
            .error .duplicateApplicants
          else if (assignments.map (fun a => a.roleId)).dedup.length ≠ teamSize then
            .error .duplicateRoles
          else
            .ok { teamId := team.id
                  assignments := assignments
                  totalScore := totalScore
                  justificationsGenerated := false }

/-- `Assigner.assignRoles`: convert scores to costs (`100 - score`), run
the Hungarian algorithm, validate. -/
def assignRoles (team : Team) (roles : List RoleDefinition)
    (sm : ScoreMatrix) : Except AssignError TeamAssignment :=
  assignRolesWith team roles sm
    (munkres (sm.scores.map (fun row => row.map (fun score => 100 - score))))

/-! ## Scorer response validation (from `src/lib/services/scorer.ts`)

The network call, JSON-array extraction and `JSON.parse` are abstracted:
a scorer run either fails outright (network / parse failure, after the
retry loop) or yields a parsed JSON value, which
`generateScoreMatrixWithRetry` then validates cell by cell. -/

/-- Parsed JSON values, as far as the validators inspect them. -/
inductive JVal where
  | num (z : ℤ)
  | str (s : String)
  | arr (elems : List JVal)
  | other

inductive ScorerError where
  | teamNotComplete
  | tooFewRoles
  | notMatrixOfTeamSize
  | badRow (i : Nat)
  | badCell (i j : Nat)
  | llmFailure
  deriving DecidableEq, Repr

/-- Validate the cells of row `i`: each must be a number in `[0, 100]`. -/
def rowCells (i : Nat) : Nat → List JVal → Except ScorerError (List ℤ)
  | _, [] => .ok []
  | j, c :: cs =>
      match c with
      | .num z =>
          if z < 0 ∨ 100 < z then .error (.badCell i j)
          else
            match rowCells i (j + 1) cs with
            | .error e => .error e
            | .ok zs => .ok (z :: zs)
      | _ => .error (.badCell i j)

/-- Validate the rows starting at index `i`: each row must be an array of
exactly `rolesCount` valid cells. -/
def rowsScores (rolesCount : Nat) : Nat → List JVal → Except ScorerError (List (List ℤ))
  | _, [] => .ok []
  | i, r :: rs =>
      match r with
      | .arr cells =>
          if cells.length ≠ rolesCount then .error (.badRow i)
          else
            match rowCells i 0 cells with
            | .error e => .error e
            | .ok row =>
                match rowsScores rolesCount (i + 1) rs with
                | .error e => .error e
                | .ok rest => .ok (row :: rest)
      | _ => .error (.badRow i)

/-- The matrix validation of `generateScoreMatrixWithRetry`: the parsed
value must be an array of exactly `teamSize` rows, each an array of
exactly `rolesCount` numbers in `[0, 100]`.  Any violation is a hard
failure; no coercion or clamping. -/
def validateParsedScores (teamSize rolesCount : Nat) : JVal → Except ScorerError (List (List ℤ))
  | .arr rows =>
      if rows.length ≠ teamSize then .error .notMatrixOfTeamSize
      else rowsScores rolesCount 0 rows
  | _ => .error .notMatrixOfTeamSize

/-- Outcome of the external scoring call: a parsed JSON value extracted
from the model response, or an outright failure. -/
inductive ScorerOutcome where
  | response (parsed : JVal)
  | failure

/-- `Scorer.generateScoreMatrix`: precondition checks, then validation of
the parsed model response. -/
def generateScoreMatrix (team : Team) (roles : List RoleDefinition)
    (outcome : ScorerOutcome) : Except ScorerError ScoreMatrix :=
  if !team.isComplete then .error .teamNotComplete
  else if roles.length < team.applicants.length then .error .tooFewRoles
  else
    match outcome with
    | .failure => .error .llmFailure
    | .response parsed =>
        match validateParsedScores team.applicants.length roles.length parsed with
        | .error e => .error e
        | .ok scores => .ok { teamId := team.id, scores := scores }

/-! ## Assignment Processor (from `src/lib/services/AssignmentProcessor.ts`)

`processTeamAssignment` drives the per-team pipeline.  Persistence is
modelled by the ordered list of `updateSessionStatus` calls the run
performs; `assignerInvoked` records whether `Assigner.assignRoles` was
called, `backgroundStarted` whether the background justification task was
launched. -/

structure PipelineEnv where
  hasApiKey : Bool
  team : Option Team
  roles : List RoleDefinition
  sessionAvailable : Bool
  scorerOutcome : ScorerOutcome
  saveOk : Bool

inductive PipelineError where
  | noApiKey
  | teamNotFound
  | teamNotComplete
  | sessionUnavailable
  | scoringFailed (e : ScorerError)
  | assignmentFailed (e : AssignError)
  | saveFailed
  deriving DecidableEq, Repr

structure PipelineResult where
  result : Except PipelineError TeamAssignment
  statusUpdates : List SessionStatus
  assignerInvoked : Bool
  backgroundStarted : Bool
  deriving DecidableEq, Repr

/-- `AssignmentProcessor.processTeamAssignment`.  `sessionAvailable` is the
outcome of `getAssignmentForTeam` / `createAssignmentSession`; `saveOk`
the outcome of `saveAssignmentData`. -/
def processTeamAssignment (env : PipelineEnv) : PipelineResult :=
  if !env.hasApiKey then ⟨.error .noApiKey, [], false, false⟩
  else
    match env.team with
    | none => ⟨.error .teamNotFound, [], false, false⟩
    | some team =>
        if !team.isComplete then ⟨.error .teamNotComplete, [], false, false⟩
        else if !env.sessionAvailable then ⟨.error .sessionUnavailable, [], false, false⟩
        else
          match generateScoreMatrix team env.roles env.scorerOutcome with
          | .error e => ⟨.error (.scoringFailed e), [.scoring, .pending], false, false⟩
          | .ok scoreMatrix =>
              match assignRoles team env.roles scoreMatrix with
              | .error e =>
                  ⟨.error (.assignmentFailed e), [.scoring, .assigning, .pending], true, false⟩
              | .ok assignment =>
                  if !env.saveOk then
                    ⟨.error .saveFailed, [.scoring, .assigning, .pending], true, false⟩
                  else
                    ⟨.ok assignment, [.scoring, .assigning, .justifying], true, true⟩

/-! ## Background justification completion

`generateJustificationsBackground` races the justification run against a
2-minute timeout; whatever the outcome, it drives the session status to
`complete`.  The persisted sessions are an association list from session
id to status. -/

abbrev SessionStore := List (String × SessionStatus)

def lookupStatus (store : SessionStore) (sessionId : String) : Option SessionStatus :=
  (store.find? (fun p => p.1 = sessionId)).map (fun p => p.2)

def updateSessionStatus (store : SessionStore) (sessionId : String)
    (status : SessionStatus) : SessionStore :=
  store.map (fun p => if p.1 = sessionId then (p.1, status) else p)

/-- How the `Promise.race` of the justification run and the 2-minute
timeout settles: the retry wrapper resolves with a success flag, the
timeout rejects, or some other error is thrown. -/
inductive BackgroundOutcome where
  | result (success : Bool)
  | timeoutThrown
  | errorThrown
  deriving DecidableEq, Repr

/-- `AssignmentProcessor.generateJustificationsBackground`, as a store
transformer.  On a successful justification result the session is
re-fetched, the justified assignment saved (the status is forced to
`complete` even when `saveOk` is false), and on a failed result, a
timeout, or any thrown error the status is likewise forced to
`complete`. -/
def generateJustificationsBackground (store : SessionStore) (sessionId : String)
    (outcome : BackgroundOutcome) (saveOk : Bool) : SessionStore :=
  match outcome with
  | .result true =>
      match lookupStatus store sessionId with
      | some _ =>
          let _ := saveOk
          updateSessionStatus store sessionId .complete
      | none => store
  | .result false => updateSessionStatus store sessionId .complete
  | .timeoutThrown => updateSessionStatus store sessionId .complete
  | .errorThrown => updateSessionStatus store sessionId .complete

/-! ## Justifier (from `src/lib/services/JustifierService.ts` and
`JustifierRunner.ts`)

The team-level justification call, from the parsed model response onward,
and the generic retry wrapper. -/

structure JustificationResponse where
  applicantId : String
  justification : String
  deriving DecidableEq, Repr

inductive JustifyError where
  | wrongAssignmentCount
  | wrongJustificationCount
  | missingIdOrJustification
  | justificationTooLong
  | noJustificationFor (applicantId : String)
  deriving DecidableEq, Repr

/-- JS `Map.get`: the most recently `set` value for the key. -/
def mapGet (m : List (String × String)) (k : String) : Option String :=
  (m.reverse.find? (fun p => p.1 = k)).map (fun p => p.2)

def mapSet (m : List (String × String)) (k v : String) : List (String × String) :=
  m ++ [(k, v)]

/-- The name → applicant-id fallback map built from the team roster. -/
def buildNameToId (team : Team) (assignment : TeamAssignment) : List (String × String) :=
  assignment.assignments.foldl
    (fun nameToId assign =>
      match team.applicants.find? (fun a => a.id = assign.applicantId) with
      | some applicant => mapSet nameToId applicant.name assign.applicantId
      | none => nameToId)
    []

/-- The per-item loop of `generateJustifications`: reject missing or empty
fields and justifications longer than 500 characters, resolve the
applicant id (falling back to the name → id map), and record the trimmed
justification. -/
def collectJustifications (assignment : TeamAssignment)
    (nameToId : List (String × String)) :
    List JustificationResponse → List (String × String) →
    Except JustifyError (List (String × String))
  | [], acc => .ok acc
  | j :: rest, acc =>
      if j.applicantId = "" ∨ j.justification = "" then .error .missingIdOrJustification
      else if 500 < j.justification.length then .error .justificationTooLong
      else
        let actualApplicantId :=
          if assignment.assignments.any (fun a => a.applicantId = j.applicantId) then
            j.applicantId
          else
            match mapGet nameToId j.applicantId with
            | some idFromName => idFromName
            | none => j.applicantId
        collectJustifications assignment nameToId rest
          (mapSet acc actualApplicantId j.justification.trim)

/-- Attach the collected justifications to the assignment entries; an
entry with no justification in the map is a hard failure. -/
def applyJustifications (justificationMap : List (String × String)) :
    List Assignment → Except JustifyError (List Assignment)
  | [] => .ok []
  | a :: rest =>
      match mapGet justificationMap a.applicantId with
      | none => .error (.noJustificationFor a.applicantId)
      | some j =>
          match applyJustifications justificationMap rest with
          | .error e => .error e
          | .ok updated => .ok ({ a with justification := some j } :: updated)

/-- `JustifierService.generateJustifications`, from the parsed model
response onward. -/
def generateJustifications (team : Team) (assignment : TeamAssignment)
    (parsed : List JustificationResponse) : Except JustifyError TeamAssignment :=
  if assignment.assignments.length ≠ team.applicants.length then
    .error .wrongAssignmentCount
  else if parsed.length ≠ assignment.assignments.length then
    .error .wrongJustificationCount
  else
    match collectJustifications assignment (buildNameToId team assignment) parsed [] with
    | .error e => .error e
    | .ok justificationMap =>
        match applyJustifications justificationMap assignment.assignments with
        | .error e => .error e
        | .ok updated =>
            .ok { assignment with assignments := updated, justificationsGenerated := true }

/-! ### Retry wrapper (`JustifierRunner.generateJustificationsWithRetry`) -/

def JUSTIFIER_MAX_RETRIES : Nat := 3

def RETRY_DELAY : Nat := 1000

/-- `isRetryableError`: keyword matching on the lowercased error message,
classifying network / timeout / rate-limit / 5xx errors as retryable. -/
def isRetryableError (msg : String) : Bool :=
  let m := msg.toLower
  (m.containsSubstr "network" || m.containsSubstr "timeout" || m.containsSubstr "fetch") ||
  (m.containsSubstr "rate limit" || m.containsSubstr "429" ||
    m.containsSubstr "too many requests") ||
  (m.containsSubstr "500" || m.containsSubstr "502" || m.containsSubstr "503" ||
    m.containsSubstr "504")

/-- How one call to `JustifierService.generateJustifications` settles: it
resolves with a result object carrying a success flag, or rejects with an
error message. -/
inductive CallOutcome where
  | returns (success : Bool)
  | throwsMsg (msg : String)
  deriving Repr

inductive WrapperResult where
  | serviceResult (success : Bool)
  | gaveUp (retryCount : Nat)
  deriving DecidableEq, Repr

/-- The retry wrapper, over an oracle giving the outcome of each attempt.
Returns the final result together with the list of backoff delays (in
milliseconds) waited before each retry. -/
def generateJustificationsWithRetry (attempts : Nat → CallOutcome)
    (retryCount : Nat) : WrapperResult × List Nat :=
  match attempts retryCount with
  | .returns b => (.serviceResult b, [])
  | .throwsMsg msg =>
      if h : isRetryableError msg ∧ retryCount < JUSTIFIER_MAX_RETRIES then
        let r := generateJustificationsWithRetry attempts (retryCount + 1)
        (r.1, (RETRY_DELAY * 2 ^ retryCount) :: r.2)
      else (.gaveUp retryCount, [])
termination_by JUSTIFIER_MAX_RETRIES - retryCount
decreasing_by
  have := h.2
  simp only [JUSTIFIER_MAX_RETRIES] at *
  omega

/-! ## Health Checker (from `AssignmentHealthChecker.ts`)

`recoverStuckTeam` acts on a raw stuck-session row; its effect is the
status update applied to the session (if any) and the team ids enqueued on
the Assignment Queue. -/

/-- A row of the `assignment_sessions` query: `assignmentKeys` is `none`
for a null `assignment` column, otherwise the keys of the stored JSON
object. -/
structure StuckSessionRow where
  id : String
  team_id : String
  status : String
  assignmentKeys : Option (List String)
  deriving DecidableEq, Repr

structure RecoveryEffect where
  success : Bool
  action : String
  statusUpdate : Option SessionStatus
  enqueuedTeams : List String
  deriving DecidableEq, Repr

/-- `AssignmentHealthChecker.recoverStuckTeam`. -/
def recoverStuckTeam (session : StuckSessionRow) : RecoveryEffect :=
  if session.status = "justifying" then
    match session.assignmentKeys with
    | some keys =>
        if 0 < keys.length then
          { success := true, action := "completed_without_justifications"
            statusUpdate := some .complete, enqueuedTeams := [] }
        else
          { success := true, action := "reset_and_requeued"
            statusUpdate := some .pending, enqueuedTeams := [session.team_id] }
    | none =>
        { success := true, action := "reset_and_requeued"
          statusUpdate := some .pending, enqueuedTeams := [session.team_id] }
  else if session.status = "scoring" ∨ session.status = "assigning" then
    { success := true, action := "reset_and_requeued"
      statusUpdate := some .pending, enqueuedTeams := [session.team_id] }
  else
    { success := false, action := "unknown_status"
      statusUpdate := none, enqueuedTeams := [] }

/-! ## Concrete fixtures

Concrete inputs used to instantiate the theorems: the two-member team of
the spec's concrete scenario 1, its role catalogue and score matrix, and
event traces for the queue. -/

def exTeam : Team :=
  { id := "team1"
    applicants := [{ id := "a0", name := "Alice" }, { id := "a1", name := "Bob" }]
    maxMembers := 2
    isComplete := true }

def exRoles : List RoleDefinition :=
  [{ id := "r0", name := "Leader" }, { id := "r1", name := "Builder" }]

def exSM : ScoreMatrix := { teamId := "team1", scores := [[90, 10], [10, 90]] }

def exTA : TeamAssignment :=
  { teamId := "team1"
    assignments :=
      [{ applicantId := "a0", roleId := "r0", score := 90 },
       { applicantId := "a1", roleId := "r1", score := 90 }]
    totalScore := 180
    justificationsGenerated := false }

/-- Five distinct teams enqueued into an empty queue. -/
def fiveTeamAdds : List QueueEvent :=
  [.add "t1", .add "t2", .add "t3", .add "t4", .add "t5"]

/-- A genuine interleaving in which team `t` ends up processing and waiting
at once: `t` is admitted and fails (scheduling a delayed retry); while the
retry timer is pending, `t` is re-admitted together with `a` and `b`,
filling the pool; then the retry timer fires and re-inserts `t` into the
waiting queue. -/
def duplicateTrace : List QueueEvent :=
  [.add "t", .failure { teamId := "t", retryCount := 0 },
   .add "t", .add "a", .add "b",
   .fire { teamId := "t", retryCount := 1 }]

/-- `true` for every event except the firing of a delayed retry timer. -/
def isNotRetryFiring : QueueEvent → Bool
  | .fire _ => false
  | _ => true

/-- Each team id occurs at most once across the processing pool and the
waiting queue. -/
def QueueUnique (s : QueueState) : Prop :=
  (s.processingPool ++ s.waitingQueue.map (fun it => it.teamId)).Nodup

/-- A 501-character justification string. -/
def longJustification : String := String.mk (List.replicate 501 'x')

/-- A scorer response whose second row has 1 entry instead of 2
(concrete scenario 2's shape violation, at team size 2). -/
def mismatchedResponse : JVal :=
  .arr [.arr [.num 90, .num 10], .arr [.num 10]]

def envRowMismatch : PipelineEnv :=
  { hasApiKey := true
    team := some exTeam
    roles := exRoles
    sessionAvailable := true
    scorerOutcome := .response mismatchedResponse
    saveOk := true }

def envSaveFail : PipelineEnv :=
  { hasApiKey := true
    team := some exTeam
    roles := exRoles
    sessionAvailable := true
    scorerOutcome := .response (.arr [.arr [.num 90, .num 10], .arr [.num 10, .num 90]])
    saveOk := false }

def envIncomplete : PipelineEnv :=
  { hasApiKey := true
    team := some { exTeam with isComplete := false }
    roles := exRoles
    sessionAvailable := true
    scorerOutcome := .failure
    saveOk := true }

def exStore : SessionStore := [("s1", SessionStatus.justifying)]

def exStuckRow : StuckSessionRow :=
  { id := "s1", team_id := "team1", status := "justifying"
    assignmentKeys := some ["teamId", "assignments", "totalScore"] }

/-! # Theorems -/

/-! ## Health-checker recovery (C9) -/

/-- **C9**: for every stuck session processed by the Health Checker's
recovery logic: status `justifying` with a non-empty assignment is forced
to `complete` with no enqueue; `justifying` with a null or empty
assignment, and `scoring` / `assigning`, are reset to `pending` with the
team id enqueued exactly once; any other status is reported unrecoverable
(`unknown_status`) with no status update and no enqueue. -/
theorem recoverStuckTeam_spec (session : StuckSessionRow) :
    (session.status = "justifying" →
      (∀ keys, session.assignmentKeys = some keys → 0 < keys.length →
        recoverStuckTeam session =
          { success := true, action := "completed_without_justifications"
            statusUpdate := some .complete, enqueuedTeams := [] }) ∧
      (∀ keys, session.assignmentKeys = some keys → keys.length = 0 →
        recoverStuckTeam session =
          { success := true, action := "reset_and_requeued"
            statusUpdate := some .pending, enqueuedTeams := [session.team_id] }) ∧
      (session.assignmentKeys = none →
        recoverStuckTeam session =
          { success := true, action := "reset_and_requeued"
            statusUpdate := some .pending, enqueuedTeams := [session.team_id] })) ∧
    ((session.status = "scoring" ∨ session.status = "assigning") →
      recoverStuckTeam session =
        { success := true, action := "reset_and_requeued"
          statusUpdate := some .pending, enqueuedTeams := [session.team_id] }) ∧
    (session.status ≠ "justifying" → session.status ≠ "scoring" →
      session.status ≠ "assigning" →
      recoverStuckTeam session =
        { success := false, action := "unknown_status"
          statusUpdate := none, enqueuedTeams := [] }) := by
  refine ⟨fun hj => ⟨fun keys hk hlen => ?_, fun keys hk hlen => ?_, fun hk => ?_⟩,
    fun hsa => ?_, fun h1 h2 h3 => ?_⟩
  · simp [recoverStuckTeam, hj, hk, hlen]
  · simp [recoverStuckTeam, hj, hk, hlen]
  · simp [recoverStuckTeam, hj, hk]
  · rcases hsa with hs | ha
    · simp [recoverStuckTeam, hs]
    · simp [recoverStuckTeam, ha]
  · simp [recoverStuckTeam, h1, h2, h3]

/-- Witness for C9 at a concrete stuck `justifying` row with a non-empty
assignment. -/
theorem recoverStuckTeam_spec_witness :
    recoverStuckTeam exStuckRow =
      { success := true, action := "completed_without_justifications"
        statusUpdate := some .complete, enqueuedTeams := [] } :=
  ((recoverStuckTeam_spec exStuckRow).1 rfl).1 _ rfl (by decide)

/-! ## Background justification always completes (C1) -/

theorem lookupStatus_cons_pos (p : String × SessionStatus) (rest : SessionStore)
    (sid : String) (hp : p.1 = sid) : lookupStatus (p :: rest) sid = some p.2 := by
  simp [lookupStatus, List.find?_cons, hp]

theorem lookupStatus_cons_neg (p : String × SessionStatus) (rest : SessionStore)
    (sid : String) (hp : ¬p.1 = sid) : lookupStatus (p :: rest) sid = lookupStatus rest sid := by
  simp [lookupStatus, List.find?_cons, hp]

theorem lookupStatus_update (store : SessionStore) (sid : String) (status : SessionStatus)
    (h : (lookupStatus store sid).isSome) :
    lookupStatus (updateSessionStatus store sid status) sid = some status := by
  induction store with
  | nil => simp [lookupStatus] at h
  | cons p rest ih =>
      by_cases hp : p.1 = sid
      · have : updateSessionStatus (p :: rest) sid status =
            (p.1, status) :: updateSessionStatus rest sid status := by
          simp [updateSessionStatus, hp]
        rw [this]
        exact lookupStatus_cons_pos (p.1, status) _ sid hp
      · have hu : updateSessionStatus (p :: rest) sid status =
            p :: updateSessionStatus rest sid status := by
          simp [updateSessionStatus, hp]
        rw [hu, lookupStatus_cons_neg _ _ _ hp]
        rw [lookupStatus_cons_neg _ _ _ hp] at h
        exact ih h

/-- **C1**: for every session present in the store, however the background
justification task terminates — wrapper result (success or failure),
2-minute timeout, or any other thrown error — the session status is set to
`complete`; it never remains `justifying` after the background task
terminates. -/
theorem background_completes (store : SessionStore) (sessionId : String)
    (outcome : BackgroundOutcome) (saveOk : Bool)
    (h : (lookupStatus store sessionId).isSome) :
    lookupStatus (generateJustificationsBackground store sessionId outcome saveOk)
      sessionId = some SessionStatus.complete := by
  cases outcome with
  | result success =>
      cases success
      · exact lookupStatus_update _ _ _ h
      · rcases Option.isSome_iff_exists.mp h with ⟨st, hst⟩
        simp only [generateJustificationsBackground, hst]
        exact lookupStatus_update _ _ _ h
  | timeoutThrown => exact lookupStatus_update _ _ _ h
  | errorThrown => exact lookupStatus_update _ _ _ h

/-- Witness for C1: a session stuck in `justifying` whose background task
times out ends `complete`. -/
theorem background_completes_witness :
    lookupStatus (generateJustificationsBackground exStore "s1" .timeoutThrown true)
      "s1" = some SessionStatus.complete :=
  background_completes exStore "s1" .timeoutThrown true (by decide)

/-! ## Pipeline failure rollback (C6) -/

/-- **C6**: for every run of `processTeamAssignment` on a found team with
the API key set: if the team is not complete the run fails without any
session status update; once the stages run, a Scorer failure rolls the
status back to `pending` (updates `[scoring, pending]`) and returns a
failure, an Assigner failure or a failure persisting the assignment rolls
back to `pending` (updates `[scoring, assigning, pending]`) and returns a
failure. -/
theorem processTeamAssignment_rollback (env : PipelineEnv) (team : Team)
    (ht : env.team = some team) (hk : env.hasApiKey = true) :
    (team.isComplete = false →
      processTeamAssignment env =
        { result := .error .teamNotComplete, statusUpdates := []
          assignerInvoked := false, backgroundStarted := false }) ∧
    (team.isComplete = true → env.sessionAvailable = true →
      (∀ e, generateScoreMatrix team env.roles env.scorerOutcome = .error e →
        processTeamAssignment env =
          { result := .error (.scoringFailed e), statusUpdates := [.scoring, .pending]
            assignerInvoked := false, backgroundStarted := false }) ∧
      (∀ sm e, generateScoreMatrix team env.roles env.scorerOutcome = .ok sm →
        assignRoles team env.roles sm = .error e →
        processTeamAssignment env =
          { result := .error (.assignmentFailed e)
            statusUpdates := [.scoring, .assigning, .pending]
            assignerInvoked := true, backgroundStarted := false }) ∧
      (∀ sm ta, generateScoreMatrix team env.roles env.scorerOutcome = .ok sm →
        assignRoles team env.roles sm = .ok ta → env.saveOk = false →
        processTeamAssignment env =
          { result := .error .saveFailed
            statusUpdates := [.scoring, .assigning, .pending]
            assignerInvoked := true, backgroundStarted := false })) := by
  refine ⟨fun hc => ?_, fun hc hs => ⟨fun e he => ?_, fun sm e hsm he => ?_,
    fun sm ta hsm hta hsave => ?_⟩⟩
  · simp [processTeamAssignment, ht, hk, hc]
  · simp [processTeamAssignment, ht, hk, hc, hs, he]
  · simp [processTeamAssignment, ht, hk, hc, hs, hsm, he]
  · simp [processTeamAssignment, ht, hk, hc, hs, hsm, hta, hsave]

/-- Witness for C6: a run whose save of the assignment fails is rolled
back to `pending` with a `saveFailed` result. -/
theorem processTeamAssignment_rollback_witness :
    processTeamAssignment envSaveFail =
      { result := .error .saveFailed
        statusUpdates := [.scoring, .assigning, .pending]
        assignerInvoked := true, backgroundStarted := false } :=
  (((processTeamAssignment_rollback envSaveFail exTeam rfl rfl).2 rfl rfl).2.2)
    exSM exTA (by decide) (by decide) rfl

/-! ## Idempotent enqueue (C5) -/

theorem addTeam_noop (s : QueueState) (t : String)
    (h : t ∈ s.processingPool ∨ s.waitingQueue.any (fun it => it.teamId = t) = true) :
    addTeam s t = s := by
  unfold addTeam
  rcases h with h | h
  · simp [h]
  · simp [h]

theorem addTeam_mem (s : QueueState) (t : String) :
    t ∈ (addTeam s t).processingPool ∨
      (addTeam s t).waitingQueue.any (fun it => it.teamId = t) = true := by
  unfold addTeam
  by_cases h1 : t ∈ s.processingPool
  · simp [h1]
  · by_cases h2 : s.waitingQueue.any (fun it => it.teamId = t) = true
    · simp [h1, h2]
    · by_cases h3 : s.processingPool.length < MAX_CONCURRENT
      · simp [h1, h2, h3, startProcessing, poolInsert]
      · simp [h1, h2, h3]

/-- **C5**: `addTeam` is idempotent — a second `addTeam` for a team that is
already processing or queued is a no-op — and enqueuing a fresh team twice
yields exactly one entry across the launched executions and the waiting
queue (one pipeline execution in total, no duplicate queue entry). -/
theorem addTeam_idempotent (s : QueueState) (t : String) :
    addTeam (addTeam s t) t = addTeam s t ∧
    (t ∉ s.processingPool →
      s.waitingQueue.all (fun it => it.teamId ≠ t) = true →
      s.inflight.all (fun it => it.teamId ≠ t) = true →
      ((addTeam (addTeam s t) t).inflight.filter (fun it => it.teamId = t)).length +
        ((addTeam (addTeam s t) t).waitingQueue.filter
          (fun it => it.teamId = t)).length = 1) := by
  have hnoop : addTeam (addTeam s t) t = addTeam s t :=
    addTeam_noop _ t (addTeam_mem s t)
  refine ⟨hnoop, fun h1 hw hi => ?_⟩
  rw [hnoop]
  have hwf : s.waitingQueue.filter (fun it => it.teamId = t) = [] := by
    simp only [List.filter_eq_nil_iff]
    intro it hit
    have := List.all_eq_true.mp hw it hit
    simpa using this
  have hif : s.inflight.filter (fun it => it.teamId = t) = [] := by
    simp only [List.filter_eq_nil_iff]
    intro it hit
    have := List.all_eq_true.mp hi it hit
    simpa using this
  by_cases h2 : s.waitingQueue.any (fun it => it.teamId = t) = true
  · exfalso
    rcases List.any_eq_true.mp h2 with ⟨it, hit, hp⟩
    have := List.all_eq_true.mp hw it hit
    simp at hp this
    exact this hp
  · unfold addTeam
    by_cases h3 : s.processingPool.length < MAX_CONCURRENT
    · simp [h1, h2, h3, startProcessing, List.filter_append, hwf, hif]
    · simp [h1, h2, h3, List.filter_append, hwf, hif]

/-- Witness for C5 at the empty queue. -/
theorem addTeam_idempotent_witness :
    addTeam (addTeam initQueue "t") "t" = addTeam initQueue "t" ∧
      ((addTeam (addTeam initQueue "t") "t").inflight.filter
          (fun it => it.teamId = "t")).length +
        ((addTeam (addTeam initQueue "t") "t").waitingQueue.filter
          (fun it => it.teamId = "t")).length = 1 :=
  ⟨(addTeam_idempotent initQueue "t").1,
   (addTeam_idempotent initQueue "t").2 (by decide) (by decide) (by decide)⟩

/-! ## Bounded concurrency (C4) -/

theorem poolInsert_length_le (pool : List String) (t : String) :
    (poolInsert pool t).length ≤ pool.length + 1 := by
  unfold poolInsert
  split
  · omega
  · simp

theorem erase_length_le (pool : List String) (t : String) :
    (pool.erase t).length ≤ pool.length :=
  (List.erase_sublist t pool).length_le

theorem processNext_bound (s : QueueState)
    (h : s.processingPool.length ≤ MAX_CONCURRENT) :
    (processNext s).processingPool.length ≤ MAX_CONCURRENT := by
  unfold processNext
  by_cases hge : MAX_CONCURRENT ≤ s.processingPool.length
  · simpa [hge] using h
  · simp only [if_neg hge]
    cases hw : s.waitingQueue with
    | nil => exact h
    | cons nextItem rest =>
        dsimp only [startProcessing]
        refine Nat.le_trans (poolInsert_length_le _ _) ?_
        simp only [MAX_CONCURRENT] at hge ⊢
        omega

theorem stepQueue_bound (s : QueueState) (e : QueueEvent)
    (h : s.processingPool.length ≤ MAX_CONCURRENT) :
    (stepQueue s e).processingPool.length ≤ MAX_CONCURRENT := by
  cases e with
  | add t =>
      show (addTeam s t).processingPool.length ≤ MAX_CONCURRENT
      unfold addTeam
      by_cases h1 : t ∈ s.processingPool
      · simpa [h1] using h
      · by_cases h2 : s.waitingQueue.any (fun it => it.teamId = t) = true
        · simpa [h1, h2] using h
        · by_cases h3 : s.processingPool.length < MAX_CONCURRENT
          · simp only [h1, h2, h3, if_true, if_neg, not_false_iff, if_pos]
            dsimp only [startProcessing]
            refine Nat.le_trans (poolInsert_length_le _ _) ?_
            simp only [MAX_CONCURRENT] at h3 ⊢
            omega
          · simpa [h1, h2, h3] using h
  | success it =>
      show (completeSuccess s it).processingPool.length ≤ MAX_CONCURRENT
      unfold completeSuccess
      by_cases hin : it ∈ s.inflight
      · simp only [if_pos hin]
        apply processNext_bound
        exact Nat.le_trans (erase_length_le _ _) h
      · simpa [hin] using h
  | failure it =>
      show (completeFailure s it).processingPool.length ≤ MAX_CONCURRENT
      unfold completeFailure
      by_cases hin : it ∈ s.inflight
      · by_cases hr : it.retryCount < MAX_RETRIES
        · simp only [if_pos hin, if_pos hr]
          apply processNext_bound
          exact Nat.le_trans (erase_length_le _ _) h
        · simp only [if_pos hin, if_neg hr]
          apply processNext_bound
          exact Nat.le_trans (erase_length_le _ _) h
      · simpa [hin] using h
  | fire it =>
      show (retryFire s it).processingPool.length ≤ MAX_CONCURRENT
      unfold retryFire
      by_cases hin : it ∈ s.pendingRetries
      · simp only [if_pos hin]
        exact processNext_bound _ h
      · simpa [hin] using h

theorem runQueue_bound_aux (evs : List QueueEvent) (s : QueueState)
    (h : s.processingPool.length ≤ MAX_CONCURRENT) :
    (evs.foldl stepQueue s).processingPool.length ≤ MAX_CONCURRENT := by
  induction evs generalizing s with
  | nil => simpa using h
  | cons e rest ih => exact ih _ (stepQueue_bound s e h)

/-- **C4**: in every reachable state of the queue — under any sequence of
`addTeam` calls, pipeline completions, retry-timer firings and
`processNext` steps — at most `MAX_CONCURRENT = 3` teams are processing;
enqueuing 5 distinct teams into an empty queue starts exactly the first 3
and leaves 2 waiting, and when one of the 3 completes exactly one waiting
team (the first, `t4`) is admitted into the freed slot. -/
theorem queue_concurrency_bound :
    (∀ evs : List QueueEvent,
      (runQueue evs).processingPool.length ≤ MAX_CONCURRENT) ∧
    (runQueue fiveTeamAdds).processingPool = ["t1", "t2", "t3"] ∧
    (runQueue fiveTeamAdds).waitingQueue.map (fun it => it.teamId) = ["t4", "t5"] ∧
    (runQueue (fiveTeamAdds ++
        [.success { teamId := "t1", retryCount := 0 }])).processingPool
      = ["t2", "t3", "t4"] ∧
    (runQueue (fiveTeamAdds ++
        [.success { teamId := "t1", retryCount := 0 }])).waitingQueue.map
        (fun it => it.teamId) = ["t5"] :=
  ⟨fun evs => runQueue_bound_aux evs initQueue (by decide),
   by decide, by decide, by decide, by decide⟩

/-! ## Team-id uniqueness across pool and waiting queue (C10) -/

theorem processNext_unique (s : QueueState) (h : QueueUnique s) :
    QueueUnique (processNext s) := by
  unfold processNext
  by_cases hge : MAX_CONCURRENT ≤ s.processingPool.length
  · simpa [hge] using h
  · simp only [if_neg hge]
    cases hw : s.waitingQueue with
    | nil => exact h
    | cons nextItem rest =>
        unfold QueueUnique at h ⊢
        rw [hw] at h
        dsimp only [startProcessing]
        have hni : nextItem.teamId ∉ s.processingPool := by
          intro hmem
          exact (List.disjoint_of_nodup_append h) hmem (by simp)
        rw [poolInsert, if_neg hni, List.append_assoc]
        simpa using h

theorem addTeam_unique (s : QueueState) (t : String) (h : QueueUnique s) :
    QueueUnique (addTeam s t) := by
  unfold addTeam
  by_cases h1 : t ∈ s.processingPool
  · simpa [h1] using h
  · by_cases h2 : s.waitingQueue.any (fun it => it.teamId = t) = true
    · simpa [h1, h2] using h
    · have ht : t ∉ s.waitingQueue.map (fun it => it.teamId) := by
        intro hmem
        rcases List.mem_map.mp hmem with ⟨it, hit, hid⟩
        exact h2 (List.any_eq_true.mpr ⟨it, hit, by simp [hid]⟩)
      have hboth : t ∉ s.processingPool ++ s.waitingQueue.map (fun it => it.teamId) := by
        intro hmem
        rcases List.mem_append.mp hmem with hm | hm
        · exact h1 hm
        · exact ht hm
      by_cases h3 : s.processingPool.length < MAX_CONCURRENT
      · simp only [h1, h2, h3, if_pos, if_neg, not_false_iff, if_false, Bool.false_eq_true]
        dsimp only [startProcessing]
        unfold QueueUnique at h ⊢
        dsimp only
        rw [poolInsert, if_neg h1, List.append_assoc]
        have hperm : List.Perm
            (s.processingPool ++ (t :: s.waitingQueue.map (fun it => it.teamId)))
            (t :: (s.processingPool ++ s.waitingQueue.map (fun it => it.teamId))) :=
          List.perm_middle
        exact hperm.symm.nodup (List.nodup_cons.mpr ⟨hboth, h⟩)
      · simp only [h1, h2, h3, if_pos, if_neg, not_false_iff, if_false, Bool.false_eq_true]
        unfold QueueUnique at h ⊢
        dsimp only
        rw [List.map_append, ← List.append_assoc]
        have hperm : List.Perm
            ((s.processingPool ++ s.waitingQueue.map (fun it => it.teamId)) ++ [t])
            (t :: (s.processingPool ++ s.waitingQueue.map (fun it => it.teamId))) :=
          List.perm_append_singleton t _
        exact hperm.symm.nodup (List.nodup_cons.mpr ⟨hboth, h⟩)

theorem erasePool_unique (s : QueueState) (x : String)
    (h : QueueUnique s) :
    ((s.processingPool.erase x) ++
      s.waitingQueue.map (fun it => it.teamId)).Nodup :=
  h.sublist ((List.erase_sublist x s.processingPool).append (List.Sublist.refl _))

theorem completeSuccess_unique (s : QueueState) (it : QueueItem) (h : QueueUnique s) :
    QueueUnique (completeSuccess s it) := by
  unfold completeSuccess
  by_cases hin : it ∈ s.inflight
  · simp only [if_pos hin]
    exact processNext_unique _ (erasePool_unique s it.teamId h)
  · simpa [hin] using h

theorem completeFailure_unique (s : QueueState) (it : QueueItem) (h : QueueUnique s) :
    QueueUnique (completeFailure s it) := by
  unfold completeFailure
  by_cases hin : it ∈ s.inflight
  · by_cases hr : it.retryCount < MAX_RETRIES
    · simp only [if_pos hin, if_pos hr]
      exact processNext_unique _ (erasePool_unique s it.teamId h)
    · simp only [if_pos hin, if_neg hr]
      exact processNext_unique _ (erasePool_unique s it.teamId h)
  · simpa [hin] using h

theorem stepQueue_unique (s : QueueState) (e : QueueEvent)
    (he : isNotRetryFiring e = true) (h : QueueUnique s) :
    QueueUnique (stepQueue s e) := by
  cases e with
  | add t => exact addTeam_unique s t h
  | success it => exact completeSuccess_unique s it h
  | failure it => exact completeFailure_unique s it h
  | fire it => simp [isNotRetryFiring] at he

theorem runQueue_unique_aux (evs : List QueueEvent) (s : QueueState)
    (hall : ∀ e ∈ evs, isNotRetryFiring e = true) (h : QueueUnique s) :
    QueueUnique (evs.foldl stepQueue s) := by
  induction evs generalizing s with
  | nil => simpa using h
  | cons e rest ih =>
      exact ih _ (fun x hx => hall x (List.mem_cons_of_mem e hx))
        (stepQueue_unique s e (hall e (List.mem_cons_self e rest)) h)

/-- **C10 counterexample**: a reachable queue state in which team `t` is
simultaneously in the processing pool and in the waiting queue, refuting
the claimed uniqueness invariant.  The trace: `t` is admitted and its run
fails, scheduling a delayed retry; while the retry timer is pending, `t`
is in neither the pool nor the waiting queue, so `addTeam` admits it
again (together with `a` and `b`, filling the pool); when the retry timer
fires, `t` is unshifted into the waiting queue while still processing. -/
theorem queue_duplicate_counterexample :
    "t" ∈ (runQueue duplicateTrace).processingPool ∧
      "t" ∈ (runQueue duplicateTrace).waitingQueue.map (fun it => it.teamId) := by
  decide

/-- **C10** (amended): in every state reachable by `addTeam` calls,
pipeline completions (success or failure) and the `processNext` steps they
trigger — i.e. as long as no delayed retry re-insertion fires — each
teamId appears at most once across the processing pool and the waiting
queue.  The delayed retry re-insertion can violate this: a team whose
retry timer is pending is in neither collection, so a concurrent `addTeam`
re-admits it and the timer then duplicates it. -/
theorem queue_unique_no_retry (evs : List QueueEvent)
    (h : ∀ e ∈ evs, isNotRetryFiring e = true) :
    ((runQueue evs).processingPool ++
      (runQueue evs).waitingQueue.map (fun it => it.teamId)).Nodup :=
  runQueue_unique_aux evs initQueue h (by simp [QueueUnique, initQueue])

/-- Witness for the amended C10 on the retry-free 5-team trace. -/
theorem queue_unique_no_retry_witness :
    ((runQueue fiveTeamAdds).processingPool ++
      (runQueue fiveTeamAdds).waitingQueue.map (fun it => it.teamId)).Nodup :=
  queue_unique_no_retry fiveTeamAdds (by decide)

/-! ## Scorer validation fails hard (C7) -/

theorem rowCells_ok (i : Nat) :
    ∀ (cells : List JVal) (j : Nat) (row : List ℤ),
    rowCells i j cells = .ok row →
    cells = row.map JVal.num ∧ ∀ z ∈ row, 0 ≤ z ∧ z ≤ 100 := by
  intro cells
  induction cells with
  | nil =>
      intro j row h
      simp only [rowCells] at h
      cases h
      simp
  | cons c cs ih =>
      intro j row h
      unfold rowCells at h
      cases c with
      | num z =>
          by_cases hz : z < 0 ∨ 100 < z
          · simp [hz] at h
          · simp only [hz, if_false, if_neg, not_false_iff] at h
            cases hcs : rowCells i (j + 1) cs with
            | error e => rw [hcs] at h; cases h
            | ok zs =>
                rw [hcs] at h
                cases h
                rcases ih (j + 1) zs hcs with ⟨hc, hr⟩
                refine ⟨by rw [hc]; simp, ?_⟩
                intro w hw
                rcases List.mem_cons.mp hw with rfl | hw
                · push_neg at hz
                  exact ⟨by omega, by omega⟩
                · exact hr w hw
      | str sv => simp [rowCells] at h
      | arr elems => simp [rowCells] at h
      | other => simp [rowCells] at h

theorem rowsScores_ok (c : Nat) :
    ∀ (rows : List JVal) (i : Nat) (scores : List (List ℤ)),
    rowsScores c i rows = .ok scores →
    rows = scores.map (fun r => JVal.arr (r.map JVal.num)) ∧
    ∀ r ∈ scores, r.length = c ∧ ∀ z ∈ r, 0 ≤ z ∧ z ≤ 100 := by
  intro rows
  induction rows with
  | nil =>
      intro i scores h
      simp only [rowsScores] at h
      cases h
      simp
  | cons r rs ih =>
      intro i scores h
      unfold rowsScores at h
      cases r with
      | arr cells =>
          by_cases hl : cells.length = c
          · simp only [hl, ne_eq, not_true_eq_false, if_false, if_neg,
              not_false_iff, reduceIte] at h
            cases hrc : rowCells i 0 cells with
            | error e => rw [hrc] at h; cases h
            | ok row =>
                rw [hrc] at h
                cases hrs : rowsScores c (i + 1) rs with
                | error e => rw [hrs] at h; cases h
                | ok rest =>
                    rw [hrs] at h
                    cases h
                    rcases rowCells_ok i cells 0 row hrc with ⟨hc, hr⟩
                    rcases ih (i + 1) rest hrs with ⟨hrows, hall⟩
                    have hlen : row.length = c := by
                      rw [hc] at hl
                      simpa using hl
                    refine ⟨by rw [hrows, hc]; simp, ?_⟩
                    intro q hq
                    rcases List.mem_cons.mp hq with rfl | hq
                    · exact ⟨hlen, hr⟩
                    · exact hall q hq
          · simp [hl] at h
      | num z => simp [rowsScores] at h
      | str sv => simp [rowsScores] at h
      | other => simp [rowsScores] at h

theorem validateParsedScores_ok (teamSize rolesCount : Nat) (parsed : JVal)
    (scores : List (List ℤ))
    (h : validateParsedScores teamSize rolesCount parsed = .ok scores) :
    parsed = .arr (scores.map (fun r => JVal.arr (r.map JVal.num))) ∧
    scores.length = teamSize ∧
    ∀ r ∈ scores, r.length = rolesCount ∧ ∀ z ∈ r, 0 ≤ z ∧ z ≤ 100 := by
  cases parsed with
  | arr rows =>
      unfold validateParsedScores at h
      by_cases hl : rows.length = teamSize
      · simp only [hl, ne_eq, not_true_eq_false, if_false, if_neg, not_false_iff,
          reduceIte] at h
        rcases rowsScores_ok rolesCount rows 0 scores h with ⟨hrows, hall⟩
        refine ⟨by rw [hrows], ?_, hall⟩
        rw [hrows] at hl
        simpa using hl
      · simp [hl] at h
  | num z => simp [validateParsedScores] at h
  | str sv => simp [validateParsedScores] at h
  | other => simp [validateParsedScores] at h

/-- **C7**: the Scorer's matrix validation fails hard — it returns the
parsed numeric matrix unchanged (no coercion, no clamping) only when the
parsed value is an array of exactly `teamSize` rows, each an array of
exactly `rolesCount` numbers in `[0, 100]`; any row-length mismatch makes
validation fail; and whenever the scoring stage fails, the pipeline run
returns a failure with `Assigner.assignRoles` never invoked. -/
theorem scorer_validation_hard_fail :
    (∀ teamSize rolesCount parsed scores,
      validateParsedScores teamSize rolesCount parsed = .ok scores →
        parsed = .arr (scores.map (fun r => JVal.arr (r.map JVal.num))) ∧
        scores.length = teamSize ∧
        ∀ r ∈ scores, r.length = rolesCount ∧ ∀ z ∈ r, 0 ≤ z ∧ z ≤ 100) ∧
    (∀ teamSize rolesCount rows,
      (∃ v ∈ rows, ∀ cells, v = JVal.arr cells → cells.length ≠ rolesCount) →
      ∃ e, validateParsedScores teamSize rolesCount (.arr rows) = .error e) ∧
    (∀ env team e, env.team = some team →
      generateScoreMatrix team env.roles env.scorerOutcome = .error e →
      (processTeamAssignment env).assignerInvoked = false ∧
        ∃ pe, (processTeamAssignment env).result = .error pe) := by
  refine ⟨fun teamSize rolesCount parsed scores h =>
    validateParsedScores_ok teamSize rolesCount parsed scores h,
    fun teamSize rolesCount rows hbad => ?_, fun env team e ht he => ?_⟩
  · cases hv : validateParsedScores teamSize rolesCount (.arr rows) with
    | error e => exact ⟨e, rfl⟩
    | ok scores =>
        exfalso
        rcases validateParsedScores_ok teamSize rolesCount _ scores hv with
          ⟨hrows, _, hall⟩
        rcases hbad with ⟨v, hv1, hv2⟩
        cases hrows
        rcases List.mem_map.mp hv1 with ⟨r, hr, rfl⟩
        exact hv2 (r.map JVal.num) rfl (by simpa using (hall r hr).1)
  · unfold processTeamAssignment
    by_cases hk : env.hasApiKey = true
    · rw [ht]
      by_cases hc : team.isComplete = true
      · by_cases hs : env.sessionAvailable = true
        · simp [hk, hc, hs, he]
        · simp [hk, hc, hs]
      · simp only [hk, Bool.not_true, if_false, if_neg, not_false_iff,
          Bool.false_eq_true, reduceIte]
        simp [hc]
    · have : env.hasApiKey = false := by
        cases h : env.hasApiKey
        · rfl
        · exact absurd h hk
      simp [this]

/-- Witness for C7: a response whose second row has 1 entry instead of 2
makes scoring fail and the pipeline never invokes the Assigner. -/
theorem scorer_validation_hard_fail_witness :
    (∃ e, validateParsedScores 2 2 mismatchedResponse = .error e) ∧
    (processTeamAssignment envRowMismatch).assignerInvoked = false ∧
      ∃ pe, (processTeamAssignment envRowMismatch).result = .error pe :=
  ⟨scorer_validation_hard_fail.2.1 2 2
      [JVal.arr [JVal.num 90, JVal.num 10], JVal.arr [JVal.num 10]]
      ⟨JVal.arr [JVal.num 10],
       List.mem_cons_of_mem _ (List.mem_cons_self _ _),
       by intro cells hc; cases hc; simp⟩,
   scorer_validation_hard_fail.2.2 envRowMismatch exTeam (.badRow 1) rfl (by decide)⟩

/-! ## Justifier hard failure and retry wrapper (C8) -/

theorem collectJustifications_error_of_long (assignment : TeamAssignment)
    (nameToId : List (String × String)) :
    ∀ (items : List JustificationResponse) (acc : List (String × String)),
    (∃ j ∈ items, 500 < j.justification.length) →
    ∃ e, collectJustifications assignment nameToId items acc = .error e := by
  intro items
  induction items with
  | nil => intro acc hex; simp at hex
  | cons jr rest ih =>
      intro acc hex
      by_cases h1 : jr.applicantId = "" ∨ jr.justification = ""
      · exact ⟨.missingIdOrJustification, by simp [collectJustifications, h1]⟩
      · by_cases h2 : 500 < jr.justification.length
        · exact ⟨.justificationTooLong, by simp [collectJustifications, h1, h2]⟩
        · rcases hex with ⟨j, hj, hlen⟩
          rcases List.mem_cons.mp hj with rfl | hjr
          · exact absurd hlen h2
          · rcases ih (mapSet acc
                (if assignment.assignments.any
                    (fun a => a.applicantId = jr.applicantId) then
                  jr.applicantId
                else
                  match mapGet nameToId jr.applicantId with
                  | some idFromName => idFromName
                  | none => jr.applicantId)
                jr.justification.trim) ⟨j, hjr, hlen⟩ with ⟨e, he⟩
            refine ⟨e, ?_⟩
            conv_lhs => unfold collectJustifications
            rw [if_neg h1, if_neg h2]
            exact he

theorem applyJustifications_ok (jmap : List (String × String)) :
    ∀ (entries updated : List Assignment),
    applyJustifications jmap entries = .ok updated →
    ∀ a ∈ updated, a.justification.isSome := by
  intro entries
  induction entries with
  | nil =>
      intro updated h
      simp only [applyJustifications] at h
      cases h
      simp
  | cons a rest ih =>
      intro updated h
      unfold applyJustifications at h
      cases hg : mapGet jmap a.applicantId with
      | none => rw [hg] at h; cases h
      | some j =>
          rw [hg] at h
          cases hr : applyJustifications jmap rest with
          | error e => rw [hr] at h; cases h
          | ok upd =>
              rw [hr] at h
              cases h
              intro b hb
              rcases List.mem_cons.mp hb with rfl | hb
              · simp
              · exact ih upd hr b hb

/-- **C8**: the team-level justification call fails hard when any parsed
justification exceeds 500 characters; on success every assignment entry
carries a justification (no truncation, no partial application); and the
retry wrapper passes returned results through, terminates immediately on a
non-retryable thrown error, retries a retryable thrown error with the
exponential backoff delay while the budget (3 retries) lasts, and overall
performs at most 3 retries, with delays `1000 * 2^i`. -/
theorem justifier_hard_fail_and_retry :
    (∀ team assignment parsed,
      (∃ j ∈ parsed, 500 < j.justification.length) →
      ∃ e, generateJustifications team assignment parsed = .error e) ∧
    (∀ team assignment parsed ua,
      generateJustifications team assignment parsed = .ok ua →
      ∀ a ∈ ua.assignments, a.justification.isSome) ∧
    (∀ attempts retryCount b, attempts retryCount = .returns b →
      generateJustificationsWithRetry attempts retryCount = (.serviceResult b, [])) ∧
    (∀ attempts retryCount msg, attempts retryCount = .throwsMsg msg →
      isRetryableError msg = false →
      generateJustificationsWithRetry attempts retryCount = (.gaveUp retryCount, [])) ∧
    (∀ attempts retryCount msg, attempts retryCount = .throwsMsg msg →
      isRetryableError msg = true → retryCount < JUSTIFIER_MAX_RETRIES →
      generateJustificationsWithRetry attempts retryCount =
        ((generateJustificationsWithRetry attempts (retryCount + 1)).1,
          RETRY_DELAY * 2 ^ retryCount ::
            (generateJustificationsWithRetry attempts (retryCount + 1)).2)) ∧
    (∀ attempts : Nat → CallOutcome, ∃ k, k ≤ JUSTIFIER_MAX_RETRIES ∧
      (generateJustificationsWithRetry attempts 0).2 =
        (List.range k).map (fun i => RETRY_DELAY * 2 ^ i) ∧
      ∀ rc, (generateJustificationsWithRetry attempts 0).1 = .gaveUp rc →
        rc ≤ JUSTIFIER_MAX_RETRIES) := by
  have hrun : ∀ (attempts : Nat → CallOutcome) (fuel rc : Nat),
      JUSTIFIER_MAX_RETRIES - rc ≤ fuel →
      ∃ k, k ≤ JUSTIFIER_MAX_RETRIES - rc ∧
        (generateJustificationsWithRetry attempts rc).2 =
          (List.range' rc k).map (fun i => RETRY_DELAY * 2 ^ i) ∧
        ∀ j, (generateJustificationsWithRetry attempts rc).1 = .gaveUp j →
          j = rc + k := by
    intro attempts fuel
    induction fuel with
    | zero =>
        intro rc hrc
        have hge : JUSTIFIER_MAX_RETRIES ≤ rc := by omega
        have hcond : ∀ msg, ¬(isRetryableError msg = true ∧
            rc < JUSTIFIER_MAX_RETRIES) := by
          rintro msg ⟨-, hlt⟩
          omega
        refine ⟨0, by omega, ?_, ?_⟩
        · conv_lhs => unfold generateJustificationsWithRetry
          cases hat : attempts rc with
          | returns b => simp [hat]
          | throwsMsg msg => simp [hat, hcond msg]
        · intro j hj
          unfold generateJustificationsWithRetry at hj
          cases hat : attempts rc with
          | returns b => simp [hat] at hj
          | throwsMsg msg =>
              simp [hat, hcond msg] at hj
              omega
    | succ fuel ih =>
        intro rc hrc
        by_cases hend : JUSTIFIER_MAX_RETRIES ≤ rc
        · have hcond : ∀ msg, ¬(isRetryableError msg = true ∧
              rc < JUSTIFIER_MAX_RETRIES) := by
            rintro msg ⟨-, hlt⟩
            omega
          refine ⟨0, by omega, ?_, ?_⟩
          · conv_lhs => unfold generateJustificationsWithRetry
            cases hat : attempts rc with
            | returns b => simp [hat]
            | throwsMsg msg => simp [hat, hcond msg]
          · intro j hj
            unfold generateJustificationsWithRetry at hj
            cases hat : attempts rc with
            | returns b => simp [hat] at hj
            | throwsMsg msg =>
                simp [hat, hcond msg] at hj
                omega
        · cases hat : attempts rc with
          | returns b =>
              refine ⟨0, by omega, ?_, ?_⟩
              · conv_lhs => unfold generateJustificationsWithRetry
                simp [hat]
              · intro j hj
                unfold generateJustificationsWithRetry at hj
                simp [hat] at hj
          | throwsMsg msg =>
              by_cases hre : isRetryableError msg = true
              · have hcond : isRetryableError msg = true ∧
                    rc < JUSTIFIER_MAX_RETRIES := ⟨hre, by omega⟩
                rcases ih (rc + 1) (by omega) with ⟨k, hk, h2, h1⟩
                refine ⟨k + 1, by omega, ?_, ?_⟩
                · conv_lhs => unfold generateJustificationsWithRetry
                  simp only [hat, hcond, and_self, dif_pos]
                  rw [h2, List.range'_succ rc k 1]
                  simp
                · intro j hj
                  unfold generateJustificationsWithRetry at hj
                  simp only [hat, hcond, and_self, dif_pos] at hj
                  have := h1 j hj
                  omega
              · have hcond : ¬(isRetryableError msg = true ∧
                    rc < JUSTIFIER_MAX_RETRIES) := fun hc => hre hc.1
                refine ⟨0, by omega, ?_, ?_⟩
                · conv_lhs => unfold generateJustificationsWithRetry
                  simp [hat, hcond]
                · intro j hj
                  unfold generateJustificationsWithRetry at hj
                  simp [hat, hcond] at hj
                  omega
  refine ⟨fun team assignment parsed hlong => ?_,
    fun team assignment parsed ua hok => ?_,
    fun attempts rc b hat => ?_, fun attempts rc msg hat hre => ?_,
    fun attempts rc msg hat hre hlt => ?_, fun attempts => ?_⟩
  · unfold generateJustifications
    by_cases hca : assignment.assignments.length ≠ team.applicants.length
    · exact ⟨.wrongAssignmentCount, by simp [hca]⟩
    · by_cases hcp : parsed.length ≠ assignment.assignments.length
      · exact ⟨.wrongJustificationCount, by simp [hca, hcp]⟩
      · rcases collectJustifications_error_of_long assignment
          (buildNameToId team assignment) parsed [] hlong with ⟨e, he⟩
        exact ⟨e, by simp [hca, hcp, he]⟩
  · unfold generateJustifications at hok
    by_cases hca : assignment.assignments.length ≠ team.applicants.length
    · simp [hca] at hok
    · by_cases hcp : parsed.length ≠ assignment.assignments.length
      · simp [hca, hcp] at hok
      · simp only [hca, hcp, if_false, if_neg, not_false_iff, reduceIte] at hok
        cases hcol : collectJustifications assignment
            (buildNameToId team assignment) parsed [] with
        | error e => simp [hcol] at hok
        | ok jmap =>
            simp only [hcol] at hok
            cases happ : applyJustifications jmap assignment.assignments with
            | error e => simp [happ] at hok
            | ok updated =>
                simp only [happ] at hok
                cases hok
                intro a ha
                exact applyJustifications_ok jmap assignment.assignments updated happ a
                  (by simpa using ha)
  · conv_lhs => unfold generateJustificationsWithRetry
    simp [hat]
  · conv_lhs => unfold generateJustificationsWithRetry
    have hcond : ¬(isRetryableError msg = true ∧ rc < JUSTIFIER_MAX_RETRIES) := by
      rintro ⟨hc, -⟩
      rw [hre] at hc
      cases hc
    simp [hat, hcond]
  · conv_lhs => unfold generateJustificationsWithRetry
    have hcond : isRetryableError msg = true ∧ rc < JUSTIFIER_MAX_RETRIES := ⟨hre, hlt⟩
    simp [hat, hcond]
  · rcases hrun attempts JUSTIFIER_MAX_RETRIES 0 (by omega) with ⟨k, hk, h2, h1⟩
    refine ⟨k, by omega, ?_, ?_⟩
    · rw [h2, List.range_eq_range' k]
    · intro rc hrc
      have := h1 rc hrc
      omega

set_option maxRecDepth 4096 in
/-- Witness for C8: an over-long justification is rejected, and the
wrapper passes a returned result straight through. -/
theorem justifier_hard_fail_and_retry_witness :
    (∃ e, generateJustifications exTeam exTA
        [{ applicantId := "a0", justification := longJustification },
         { applicantId := "a1", justification := "fine" }] = .error e) ∧
    generateJustificationsWithRetry (fun _ => .returns true) 0 =
      (.serviceResult true, []) :=
  ⟨justifier_hard_fail_and_retry.1 exTeam exTA _
      ⟨{ applicantId := "a0", justification := longJustification },
       List.mem_cons_self _ _, by decide⟩,
   justifier_hard_fail_and_retry.2.2.1 (fun _ => .returns true) 0 true rfl⟩

/-! ## Assignment bijection (C2) -/

theorem buildAssignments_ok (team : Team) (roles : List RoleDefinition)
    (sm : ScoreMatrix) :
    ∀ (pairs : List (Nat × Nat)) (l : List Assignment) (total : ℤ),
    buildAssignments team roles sm pairs = .ok (l, total) →
    l.length = pairs.length ∧
    ∀ p ∈ pairs, p.1 < team.applicants.length ∧ p.2 < roles.length := by
  intro pairs
  induction pairs with
  | nil =>
      intro l total h
      simp only [buildAssignments] at h
      cases h
      simp
  | cons p rest ih =>
      intro l total h
      obtain ⟨ai, ri⟩ := p
      unfold buildAssignments at h
      by_cases hb : ai < team.applicants.length ∧ ri < roles.length
      · rw [dif_pos hb] at h
        cases hrec : buildAssignments team roles sm rest with
        | error e => rw [hrec] at h; cases h
        | ok pr =>
            obtain ⟨assignments, totalScore⟩ := pr
            rw [hrec] at h
            cases h
            rcases ih assignments totalScore hrec with ⟨hlen, hall⟩
            refine ⟨by simp [hlen], ?_⟩
            intro q hq
            rcases List.mem_cons.mp hq with rfl | hq
            · exact hb
            · exact hall q hq
      · rw [dif_neg hb] at h
        cases h

/-- **C2**: whenever `assignRoles`'s post-matching validation accepts a
matcher output, the returned `TeamAssignment` has exactly `teamSize`
assignment pairs, the assigned applicant ids are pairwise distinct with
exactly `teamSize` distinct values, likewise the assigned role ids, and
every applicant/role index produced by the matching is in-bounds; any
violation yields a failure result instead. -/
theorem assignRoles_bijection (team : Team) (roles : List RoleDefinition)
    (sm : ScoreMatrix) (hungarianResult : List (Nat × Nat)) (ta : TeamAssignment)
    (h : assignRolesWith team roles sm hungarianResult = .ok ta) :
    ta.assignments.length = team.applicants.length ∧
    (ta.assignments.map (fun a => a.applicantId)).Nodup ∧
    (ta.assignments.map (fun a => a.roleId)).Nodup ∧
    (ta.assignments.map (fun a => a.applicantId)).dedup.length =
      team.applicants.length ∧
    (ta.assignments.map (fun a => a.roleId)).dedup.length =
      team.applicants.length ∧
    (∀ p ∈ hungarianResult, p.1 < team.applicants.length ∧ p.2 < roles.length) := by
  unfold assignRolesWith at h
  by_cases hc : team.isComplete
  swap
  · simp [hc] at h
  simp only [hc, Bool.not_true, Bool.false_eq_true, if_false, reduceIte] at h
  by_cases h2 : roles.length < team.applicants.length
  · simp [h2] at h
  simp only [h2, if_false, reduceIte] at h
  by_cases h3 : sm.scores.length = team.applicants.length ∧
      sm.scores.all (fun row => row.length = roles.length) = true
  swap
  · simp only [h3, not_false_iff, if_true, reduceIte] at h
    cases h
  simp only [h3, not_true_eq_false, if_false, reduceIte] at h
  by_cases h4 : hungarianResult.length = team.applicants.length
  swap
  · simp [h4] at h
  simp only [h4, ne_eq, not_true_eq_false, if_false, reduceIte] at h
  cases hb : buildAssignments team roles sm hungarianResult with
  | error e => rw [hb] at h; cases h
  | ok pr =>
      obtain ⟨assignments, totalScore⟩ := pr
      rw [hb] at h
      rcases buildAssignments_ok team roles sm hungarianResult assignments
        totalScore hb with ⟨hlen, hbounds⟩
      by_cases h5 : (assignments.map (fun a => a.applicantId)).dedup.length =
          team.applicants.length
      swap
      · simp [h5] at h
      simp only [h5, ne_eq, not_true_eq_false, if_false, reduceIte] at h
      by_cases h6 : (assignments.map (fun a => a.roleId)).dedup.length =
          team.applicants.length
      swap
      · simp [h6] at h
      simp only [h6, ne_eq, not_true_eq_false, if_false, reduceIte] at h
      cases h
      have hlen2 : assignments.length = team.applicants.length := by
        rw [hlen, h4]
      have hnodupA : (assignments.map (fun a => a.applicantId)).Nodup := by
        have hsub := List.dedup_sublist (assignments.map (fun a => a.applicantId))
        have heq := hsub.eq_of_length (by simp [h5, hlen2])
        rw [← heq]
        exact List.nodup_dedup _
      have hnodupR : (assignments.map (fun a => a.roleId)).Nodup := by
        have hsub := List.dedup_sublist (assignments.map (fun a => a.roleId))
        have heq := hsub.eq_of_length (by simp [h6, hlen2])
        rw [← heq]
        exact List.nodup_dedup _
      exact ⟨hlen2, hnodupA, hnodupR, h5, h6, hbounds⟩

/-- Witness for C2 on the concrete 2-member team with matching
`[(0,0), (1,1)]`. -/
theorem assignRoles_bijection_witness :
    exTA.assignments.length = exTeam.applicants.length ∧
    (exTA.assignments.map (fun a => a.applicantId)).Nodup ∧
    (exTA.assignments.map (fun a => a.roleId)).Nodup ∧
    (exTA.assignments.map (fun a => a.applicantId)).dedup.length =
      exTeam.applicants.length ∧
    (exTA.assignments.map (fun a => a.roleId)).dedup.length =
      exTeam.applicants.length ∧
    (∀ p ∈ [(0, 0), (1, 1)], p.1 < exTeam.applicants.length ∧
      p.2 < exRoles.length) :=
  assignRoles_bijection exTeam exRoles exSM [(0, 0), (1, 1)] exTA (by decide)

/-! ## Assigner optimality (C3) -/

theorem injectionsFrom_sound :
    ∀ (n : Nat) (avail : List Nat) (σ : List Nat),
    σ ∈ injectionsFrom n avail → σ.length = n ∧ ∀ j ∈ σ, j ∈ avail := by
  intro n
  induction n with
  | zero =>
      intro avail σ h
      simp only [injectionsFrom, List.mem_singleton] at h
      subst h
      simp
  | succ n ih =>
      intro avail σ h
      simp only [injectionsFrom] at h
      rcases List.mem_flatMap.mp h with ⟨j, hj, hσ⟩
      rcases List.mem_map.mp hσ with ⟨σt, hσt, rfl⟩
      rcases ih (avail.erase j) σt hσt with ⟨hl, hmem⟩
      refine ⟨by simp [hl], ?_⟩
      intro x hx
      rcases List.mem_cons.mp hx with rfl | hx
      · exact hj
      · exact List.mem_of_mem_erase (hmem x hx)

theorem injectionsFrom_complete :
    ∀ (σ : List Nat) (avail : List Nat),
    σ.Nodup → (∀ j ∈ σ, j ∈ avail) → σ ∈ injectionsFrom σ.length avail := by
  intro σ
  induction σ with
  | nil => intro avail _ _; simp [injectionsFrom]
  | cons j σt ih =>
      intro avail hnd hmem
      simp only [List.length_cons, injectionsFrom]
      refine List.mem_flatMap.mpr ⟨j, hmem j (List.mem_cons_self _ _), ?_⟩
      refine List.mem_map.mpr ⟨σt, ?_, rfl⟩
      rcases List.nodup_cons.mp hnd with ⟨hj, hndt⟩
      refine ih (avail.erase j) hndt ?_
      intro x hx
      refine (List.mem_erase_of_ne ?_).mpr (hmem x (List.mem_cons_of_mem _ hx))
      intro hxj
      exact hj (hxj ▸ hx)

theorem cellQ_map_sub (scores : List (List ℤ)) (i j : Nat)
    (hi : i < scores.length) (hj : j < (scores.get ⟨i, hi⟩).length) :
    cellQ (scores.map (fun row => row.map (fun s => (100 : ℤ) - s))) i j =
      100 - cellQ scores i j := by
  unfold cellQ
  have h1 : scores[i]? = some (scores.get ⟨i, hi⟩) := by
    rw [List.getElem?_eq_getElem hi]
    simp
  have h2 : (scores.get ⟨i, hi⟩)[j]? = some ((scores.get ⟨i, hi⟩).get ⟨j, hj⟩) := by
    rw [List.getElem?_eq_getElem hj]
    simp
  have hrow1 : (scores.map (fun row => row.map (fun s => (100 : ℤ) - s))).getD i [] =
      (scores.get ⟨i, hi⟩).map (fun s => (100 : ℤ) - s) := by
    rw [List.getD_eq_getElem?_getD, List.getElem?_map, h1]
    simp
  have hrow2 : scores.getD i [] = scores.get ⟨i, hi⟩ := by
    rw [List.getD_eq_getElem?_getD, h1]
    simp
  rw [hrow1, hrow2]
  have hcell1 : (scores.get ⟨i, hi⟩).getD j 0 =
      (scores.get ⟨i, hi⟩).get ⟨j, hj⟩ := by
    rw [List.getD_eq_getElem?_getD, h2]
    simp
  have hcell2 : ((scores.get ⟨i, hi⟩).map (fun s => (100 : ℤ) - s)).getD j 0 =
      100 - (scores.get ⟨i, hi⟩).get ⟨j, hj⟩ := by
    rw [List.getD_eq_getElem?_getD, List.getElem?_map, h2]
    simp
  rw [hcell2, hcell1]

theorem matchCost_map_sub (scores : List (List ℤ)) (c : Nat)
    (hrows : ∀ r ∈ scores, r.length = c) :
    ∀ (σ : List Nat) (i : Nat), (∀ j ∈ σ, j < c) →
    i + σ.length ≤ scores.length →
    matchCost (scores.map (fun row => row.map (fun s => (100 : ℤ) - s))) σ i =
      100 * (σ.length : ℤ) - sumScoreFrom scores σ i := by
  intro σ
  induction σ with
  | nil => intro i _ _; simp [matchCost, sumScoreFrom]
  | cons j σt ih =>
      intro i hlt hle
      have hi : i < scores.length := by
        simp only [List.length_cons] at hle
        omega
      have hrow : (scores.get ⟨i, hi⟩).length = c :=
        hrows _ (scores.get_mem _ _)
      have hj : j < (scores.get ⟨i, hi⟩).length := by
        rw [hrow]
        exact hlt j (List.mem_cons_self _ _)
      simp only [matchCost, sumScoreFrom]
      rw [cellQ_map_sub scores i j hi hj]
      rw [ih (i + 1) (fun x hx => hlt x (List.mem_cons_of_mem _ hx))
        (by simp only [List.length_cons] at hle; omega)]
      simp only [List.length_cons]
      push_cast
      ring

theorem buildAssignments_total (team : Team) (roles : List RoleDefinition)
    (sm : ScoreMatrix) :
    ∀ (σ : List Nat) (i : Nat) (l : List Assignment) (total : ℤ),
    buildAssignments team roles sm ((List.range' i σ.length).zip σ) =
      .ok (l, total) →
    total = sumScoreFrom sm.scores σ i := by
  intro σ
  induction σ with
  | nil =>
      intro i l total h
      simp only [List.length_nil, List.range', List.zip_nil_right,
        buildAssignments] at h
      cases h
      simp [sumScoreFrom]
  | cons j σt ih =>
      intro i l total h
      rw [List.length_cons, List.range'_succ i σt.length 1,
        List.zip_cons_cons] at h
      unfold buildAssignments at h
      by_cases hb : i < team.applicants.length ∧ j < roles.length
      · rw [dif_pos hb] at h
        cases hrec : buildAssignments team roles sm
            ((List.range' (i + 1) σt.length).zip σt) with
        | error e => rw [hrec] at h; cases h
        | ok pr =>
            obtain ⟨l2, t2⟩ := pr
            rw [hrec] at h
            cases h
            simp only [sumScoreFrom]
            rw [ih (i + 1) l2 t2 hrec]
      · rw [dif_neg hb] at h
        cases h

theorem foldr_max_const (c : Nat) :
    ∀ (l : List Nat), l ≠ [] → (∀ x ∈ l, x = c) → l.foldr max 0 = c := by
  intro l
  induction l with
  | nil => intro h; exact absurd rfl h
  | cons x rest ih =>
      intro _ hall
      cases rest with
      | nil => simp [hall x (List.mem_cons_self _ _)]
      | cons y t =>
          have hr := ih (by simp) (fun z hz => hall z (List.mem_cons_of_mem _ hz))
          simp only [List.foldr_cons] at hr ⊢
          rw [hr, hall x (List.mem_cons_self _ _)]
          exact Nat.max_self c

theorem colCount_map_sub (scores : List (List ℤ)) (c : Nat)
    (hne : scores ≠ []) (hrows : ∀ r ∈ scores, r.length = c) :
    colCount (scores.map (fun row => row.map (fun s => (100 : ℤ) - s))) = c := by
  unfold colCount
  rw [List.map_map]
  apply foldr_max_const
  · simp [hne]
  · intro x hx
    rcases List.mem_map.mp hx with ⟨r, hr, rfl⟩
    simp [hrows r hr]

theorem assignRolesWith_ok (team : Team) (roles : List RoleDefinition)
    (sm : ScoreMatrix) (hr : List (Nat × Nat)) (ta : TeamAssignment)
    (h : assignRolesWith team roles sm hr = .ok ta) :
    sm.scores.length = team.applicants.length ∧
    (∀ r ∈ sm.scores, r.length = roles.length) ∧
    hr.length = team.applicants.length ∧
    ∃ l, buildAssignments team roles sm hr = .ok (l, ta.totalScore) := by
  unfold assignRolesWith at h
  by_cases hc : team.isComplete
  swap
  · simp [hc] at h
  simp only [hc, Bool.not_true, Bool.false_eq_true, if_false, reduceIte] at h
  by_cases h2 : roles.length < team.applicants.length
  · simp [h2] at h
  simp only [h2, if_false, reduceIte] at h
  by_cases h3 : sm.scores.length = team.applicants.length ∧
      sm.scores.all (fun row => row.length = roles.length) = true
  swap
  · simp only [h3, not_false_iff, if_true, reduceIte] at h
    cases h
  simp only [h3, not_true_eq_false, if_false, reduceIte] at h
  by_cases h4 : hr.length = team.applicants.length
  swap
  · simp [h4] at h
  simp only [h4, ne_eq, not_true_eq_false, if_false, reduceIte] at h
  cases hb : buildAssignments team roles sm hr with
  | error e => rw [hb] at h; cases h
  | ok pr =>
      obtain ⟨assignments, totalScore⟩ := pr
      rw [hb] at h
      by_cases h5 : (assignments.map (fun a => a.applicantId)).dedup.length =
          team.applicants.length
      swap
      · simp [h5] at h
      simp only [h5, ne_eq, not_true_eq_false, if_false, reduceIte] at h
      by_cases h6 : (assignments.map (fun a => a.roleId)).dedup.length =
          team.applicants.length
      swap
      · simp [h6] at h
      simp only [h6, ne_eq, not_true_eq_false, if_false, reduceIte] at h
      cases h
      refine ⟨h3.1, ?_, h4, assignments, ?_⟩
      · intro r hrm
        have := List.all_eq_true.mp h3.2 r hrm
        simpa using this
      · rfl

/-- **C3**: for every team, role list and score matrix accepted by
`assignRoles` — which converts scores to costs `100 - score` and runs the
(modelled) Hungarian minimum-cost matching on the cost matrix — the
returned `totalScore` is greater than or equal to the total score of
every other one-to-one assignment `σ` of the applicants to distinct
roles. -/
theorem assignRoles_optimal (team : Team) (roles : List RoleDefinition)
    (sm : ScoreMatrix) (ta : TeamAssignment) (σ : List Nat)
    (h : assignRoles team roles sm = .ok ta)
    (hσlen : σ.length = team.applicants.length)
    (hσnd : σ.Nodup)
    (hσlt : ∀ j ∈ σ, j < roles.length) :
    sumScoreFrom sm.scores σ 0 ≤ ta.totalScore := by
  unfold assignRoles at h
  rcases assignRolesWith_ok team roles sm _ ta h with ⟨hslen, hrows, hhr, l, hbuild⟩
  rcases Nat.eq_zero_or_pos team.applicants.length with hn0 | hnpos
  · have hσnil : σ = [] := List.length_eq_zero.mp (by omega)
    have hhrnil : munkres (sm.scores.map
        (fun row => row.map (fun s => (100 : ℤ) - s))) = [] :=
      List.length_eq_zero.mp (by omega)
    rw [hhrnil] at hbuild
    simp only [buildAssignments, Except.ok.injEq, Prod.mk.injEq] at hbuild
    subst hσnil
    simp [sumScoreFrom, ← hbuild.2]
  · have hne : sm.scores ≠ [] := by
      intro hh
      rw [hh] at hslen
      simp at hslen
      omega
    have hcc : colCount (sm.scores.map
        (fun row => row.map (fun s => (100 : ℤ) - s))) = roles.length :=
      colCount_map_sub _ _ hne hrows
    have hcostlen : (sm.scores.map
        (fun row => row.map (fun s => (100 : ℤ) - s))).length =
        team.applicants.length := by
      simp [hslen]
    cases harg : (injectionsFrom (sm.scores.map
          (fun row => row.map (fun s => (100 : ℤ) - s))).length
        (List.range (colCount (sm.scores.map
          (fun row => row.map (fun s => (100 : ℤ) - s)))))).argmin
        (fun τ => matchCost (sm.scores.map
          (fun row => row.map (fun s => (100 : ℤ) - s))) τ 0) with
    | none =>
        exfalso
        have hmunk : munkres (sm.scores.map
            (fun row => row.map (fun s => (100 : ℤ) - s))) = [] := by
          unfold munkres
          dsimp only
          rw [harg]
        rw [hmunk] at hhr
        simp at hhr
        omega
    | some σs =>
        have hmunk : munkres (sm.scores.map
            (fun row => row.map (fun s => (100 : ℤ) - s))) =
            (List.range (sm.scores.map
              (fun row => row.map (fun s => (100 : ℤ) - s))).length).zip σs := by
          unfold munkres
          dsimp only
          rw [harg]
        rcases injectionsFrom_sound _ _ σs
            (List.argmin_mem harg) with ⟨hσslen, hσsmem⟩
        have hσslt : ∀ j ∈ σs, j < roles.length := by
          intro j hj
          have := hσsmem j hj
          rw [hcc] at this
          exact List.mem_range.mp this
        have htotal : ta.totalScore = sumScoreFrom sm.scores σs 0 := by
          apply buildAssignments_total team roles sm σs 0 l
          rw [hmunk, List.range_eq_range'] at hbuild
          rw [← hσslen] at hbuild
          exact hbuild
        have hσmem : σ ∈ injectionsFrom (sm.scores.map
            (fun row => row.map (fun s => (100 : ℤ) - s))).length
            (List.range (colCount (sm.scores.map
              (fun row => row.map (fun s => (100 : ℤ) - s))))) := by
          have hσl2 : σ.length = (sm.scores.map
              (fun row => row.map (fun s => (100 : ℤ) - s))).length := by
            rw [hσlen, hcostlen]
          rw [← hσl2]
          apply injectionsFrom_complete σ _ hσnd
          intro j hj
          rw [hcc]
          exact List.mem_range.mpr (hσlt j hj)
        have hmin : matchCost (sm.scores.map
              (fun row => row.map (fun s => (100 : ℤ) - s))) σs 0 ≤
            matchCost (sm.scores.map
              (fun row => row.map (fun s => (100 : ℤ) - s))) σ 0 :=
          List.le_of_mem_argmin hσmem harg
        have hms : matchCost (sm.scores.map
            (fun row => row.map (fun s => (100 : ℤ) - s))) σs 0 =
            100 * (σs.length : ℤ) - sumScoreFrom sm.scores σs 0 :=
          matchCost_map_sub sm.scores roles.length hrows σs 0 hσslt
            (by rw [hσslen, hcostlen, hslen]; omega)
        have hmσ : matchCost (sm.scores.map
            (fun row => row.map (fun s => (100 : ℤ) - s))) σ 0 =
            100 * (σ.length : ℤ) - sumScoreFrom sm.scores σ 0 :=
          matchCost_map_sub sm.scores roles.length hrows σ 0 hσlt
            (by rw [hσlen, hslen]; omega)
        rw [hms, hmσ] at hmin
        have hleneq : σs.length = σ.length := by
          rw [hσslen, hcostlen, hσlen]
        rw [htotal]
        rw [hleneq] at hmin
        omega

/-- Witness for C3: the concrete-scenario-1 matrix, where the assignment
a0 → r0, a1 → r1 (total 180) beats the swapped assignment `[1, 0]`
(total 20). -/
theorem assignRoles_optimal_witness :
    sumScoreFrom exSM.scores [1, 0] 0 ≤ exTA.totalScore :=
  assignRoles_optimal exTeam exRoles exSM exTA [1, 0] (by decide) (by decide)
    (by decide) (by decide)

end TeamRole
